import Mathlib

/-!
Verification of the Coxeter-diagram (CD) parser and geometry deriver of
`src/polytope/concrete/cd.rs`.

Shallow embedding conventions:
* Rust `f64` values are modelled as `ℝ`; the exact-rational edge values
  (`i32` numerator / denominator) are modelled as `ℤ` with the `i32` range
  enforced at parse time, and the derived Coxeter matrix is kept in `ℚ`
  (every entry the code produces is a ratio of two `i32`s, or `1`, or `2`).
* The character/offset bookkeeping follows the source: the builder walks a
  peekable enumerated character iterator; we carry the enumerated list.
* Rust panics (`expect` on an empty edge slice, `petgraph::Graph::add_edge`
  with an out-of-bounds endpoint) are modelled by the `StepOut.crash`
  outcome, distinct from returned `CdError`s.
* `petgraph`'s undirected `find_edge(a, b)` walks `a`'s outgoing adjacency
  list (newest edge first) and then its incoming list (newest first); this
  is modelled by searching the reversed insertion-ordered edge list for a
  matching `(a, b)` edge and then for a matching `(b, a)` edge.
-/

namespace CD

/-- The error type of the parser, `CdError` in the source; each variant
carries the character offset at which the problem was detected. -/
inductive CdError : Type
  | MismatchedParenthesis (idx : ℕ)
  | UnexpectedEnding (idx : ℕ)
  | ParseError (idx : ℕ)
  | InvalidSymbol (idx : ℕ)
deriving DecidableEq, Repr

/-- Outcome of a fallible step: a value, a returned `CdError`, or a Rust
panic (`crash`). -/
inductive StepOut (α : Type) : Type
  | ok (a : α)
  | err (e : CdError)
  | crash

/-- A node of the diagram (`Node` in the source); ring values are `f64`,
modelled as `ℝ`. -/
inductive Node : Type
  | Unringed
  | Ringed (v : ℝ)
  | Snub (v : ℝ)

/-- `Node::value`: twice the distance from the generator point to the
node's mirror. -/
noncomputable def Node.value : Node → ℝ
  | .Unringed => 0
  | .Ringed v => v
  | .Snub v => v

/-- An edge value (`Edge` in the source): an `i32` numerator and
denominator. -/
structure Edge : Type where
  num : ℤ
  den : ℤ
deriving DecidableEq, Repr

/-- `Edge::value`: the rational value `num / den` (the source divides the
two integers as `f64`; the quotient is kept exactly in `ℚ`, via
`Rat.divInt`, which `Edge.value_eq_div` below identifies with the cast
division). -/
def Edge.value (e : Edge) : ℚ := Rat.divInt e.num e.den

/-- Digit run to a natural number, most significant digit first. -/
def digitsToNat (ds : List Char) : ℕ :=
  ds.foldl (fun a c => a * 10 + (c.toNat - 48)) 0

/-- Digit-run part of `parseI32`: one or more decimal digits, value as a
natural number. -/
def parseDigitRun (t : List Char) : Option ℕ :=
  if t = [] then none
  else if t.all Char.isDigit then some (digitsToNat t)
  else none

/-- Modelled from the spec: Rust `str::parse::<i32>` (the standard library
integer parser used for edge numerators/denominators, not part of this
repository); accepts an optional sign followed by one or more decimal
digits, rejecting values outside the `i32` range. -/
def parseI32 (s : List Char) : Option ℤ :=
  match s with
  | '-' :: t =>
    (parseDigitRun t).bind (fun n => if (n : ℤ) ≤ 2 ^ 31 then some (-(n : ℤ)) else none)
  | '+' :: t =>
    (parseDigitRun t).bind (fun n => if (n : ℤ) ≤ 2 ^ 31 - 1 then some ((n : ℤ)) else none)
  | t =>
    (parseDigitRun t).bind (fun n => if (n : ℤ) ≤ 2 ^ 31 - 1 then some ((n : ℤ)) else none)

/-- Unsigned part of `parseDec`: `digits[.digits]`. -/
def parseDecNat (t : List Char) : Option ℚ :=
  let ip := t.takeWhile Char.isDigit
  let rest := t.dropWhile Char.isDigit
  if ip = [] then none
  else
    match rest with
    | [] => some ((digitsToNat ip : ℚ))
    | '.' :: fp =>
      if fp.all Char.isDigit then
        some ((digitsToNat ip : ℚ) + (digitsToNat fp : ℚ) / (10 : ℚ) ^ fp.length)
      else none
    | _ => none

/-- Modelled from the spec: Rust `str::parse::<f64>` (standard library,
not part of this repository) restricted to the signed decimal literals the
spec's node grammar uses, `digits[.digits]`; the exact decimal value is
returned, so the source's not-a-number check can never fire. -/
def parseDec (s : List Char) : Option ℚ :=
  match s with
  | '-' :: t => (parseDecNat t).map (fun q => -q)
  | '+' :: t => parseDecNat t
  | t => parseDecNat t

/-- The single-character node table of `Node::parse` (the hardcoded
"shortchord" values). -/
noncomputable def charValue (c : Char) : Option ℝ :=
  if c = 'v' then some ((Real.sqrt 5 - 1) / 2)
  else if c = 'x' then some 1
  else if c = 'q' then some (Real.sqrt 2)
  else if c = 'f' then some ((Real.sqrt 5 + 1) / 2)
  else if c = 'h' then some (Real.sqrt 3)
  else if c = 'k' then some (Real.sqrt (Real.sqrt 2 + 2))
  else if c = 'u' then some 2
  else if c = 'w' then some (Real.sqrt 2 + 1)
  else if c = 'F' then some ((Real.sqrt 5 + 3) / 2)
  else if c = 'e' then some (Real.sqrt 3 + 1)
  else if c = 'Q' then some (Real.sqrt 2 * 2)
  else if c = 'd' then some 3
  else if c = 'V' then some (Real.sqrt 5 + 1)
  else if c = 'U' then some (Real.sqrt 2 + 2)
  else if c = 'A' then some ((Real.sqrt 5 + 5) / 4)
  else if c = 'X' then some (Real.sqrt 2 * 2 + 1)
  else if c = 'B' then some (Real.sqrt 5 + 2)
  else none

/-- The digit-literal loop of `Node::parse`: reads characters until the
closing `)`, then parses the collected run as a float; `lastIdx` is the
index the source's outer `idx` variable holds when the loop starts (used
for the mismatched-parenthesis error), `sign` the previously consumed
sign. The source's `is_nan` rejection is vacuous under the exact model of
float parsing and is omitted. -/
noncomputable def nodeDigits (sign : ℝ) (acc : List Char) (lastIdx : ℕ) :
    List (ℕ × Char) → StepOut Node
  | [] => .err (.MismatchedParenthesis lastIdx)
  | (i, c) :: t =>
    if c = ')' then
      match parseDec acc with
      | none => .err (.ParseError i)
      | some v => .ok (.Ringed (sign * (v : ℝ)))
    else nodeDigits sign (acc ++ [c]) lastIdx t

/-- The tail of `Node::parse` after parentheses and sign are skipped:
either a digit literal or a single tabulated character. -/
noncomputable def nodeAfterSign (sign : ℝ) (i : ℕ) (c : Char)
    (rest : List (ℕ × Char)) : StepOut Node :=
  if c.isDigit then nodeDigits sign [c] i rest
  else if c = 'o' then .ok .Unringed
  else if c = 's' then .ok (.Snub 1)
  else
    match charValue c with
    | some v => .ok (.Ringed v)
    | none => .err (.InvalidSymbol i)

/-- `Node::parse raw idx`: `idx` is the index of the last character of
`raw` in the original input; character `k` of `raw` is assigned index
`idx + k + 1 - raw.length`, as in the source. An empty `raw` panics
(`expect`). -/
noncomputable def NodeParse (raw : List Char) (idx : ℕ) : StepOut Node :=
  match (raw.enum).map (fun kc => (idx + kc.1 + 1 - raw.length, kc.2)) with
  | [] => .crash
  | (i0, c0) :: r0 =>
    if c0 = '(' then
      match r0 with
      | [] => .err (.MismatchedParenthesis (i0 + 1))
      | (i1, c1) :: r1 =>
        if c1 = '-' then
          match r1 with
          | [] => .err (.MismatchedParenthesis (i1 + 1))
          | (i2, c2) :: r2 => nodeAfterSign (-1) i2 c2 r2
        else nodeAfterSign 1 i1 c1 r1
    else
      if c0 = '-' then
        match r0 with
        | [] => .err (.MismatchedParenthesis (i0 + 1))
        | (i1, c1) :: r1 => nodeAfterSign (-1) i1 c1 r1
      else nodeAfterSign 1 i0 c0 r0

/-- The digit loop of `Edge::parse`. Faithful to the source: on a `/` the
accumulator is parsed as the numerator and reset, and then the `/` itself
is still pushed onto the fresh accumulator (the `if` has no `else` and no
`continue`), so the would-be denominator run always starts with `/`.
`origIdx` is the function's `idx` parameter, used for the final parse
error. -/
def edgeLoop (origIdx : ℕ) (numOpt : Option ℤ) (acc : List Char) :
    List (ℕ × Char) → StepOut Edge
  | [] =>
    match parseI32 acc with
    | none => .err (.ParseError origIdx)
    | some last =>
      match numOpt with
      | some n => .ok ⟨n, last⟩
      | none => .ok ⟨last, 1⟩
  | (i, c) :: t =>
    if c = '/' then
      match parseI32 acc with
      | none => .err (.ParseError i)
      | some n => edgeLoop origIdx (some n) ['/'] t
    else edgeLoop origIdx numOpt (acc ++ [c]) t

/-- `Edge::parse raw idx`: `idx` is the index of the character just after
the run (the peeked node start). A non-digit leading character yields
`InvalidSymbol idx`; an empty `raw` panics (`expect`). -/
def EdgeParse (raw : List Char) (idx : ℕ) : StepOut Edge :=
  match raw with
  | [] => .crash
  | c0 :: rest =>
    if c0.isDigit then
      edgeLoop idx none [c0]
        ((rest.enum).map (fun kc => (idx + (kc.1 + 1) + 1 - raw.length, kc.2)))
    else .err (.InvalidSymbol idx)

/-- The parsed diagram (`Cd` in the source): the node arena in insertion
order and the edge list in insertion order, each edge as
`(source index, target index, value)` exactly as passed to
`Graph::add_edge`. -/
structure Cd : Type where
  nodes : List Node
  edges : List (ℕ × ℕ × Edge)

/-- `Cd::dim`: the number of nodes (the rank of the described polytope). -/
def Cd.dim (cd : Cd) : ℕ := cd.nodes.length

/-- `Cd::edge_count`. -/
def Cd.edgeCount (cd : Cd) : ℕ := cd.edges.length

/-- The builder state (`CdBuilder` + its `NextEdge` slot): the graph so
far, the unconsumed enumerated characters, the pending-edge slot, and the
input length. -/
structure Builder : Type where
  nodes : List Node
  edges : List (ℕ × ℕ × Edge)
  rest : List (ℕ × Char)
  pendNode : Option ℕ
  pendEdge : Option Edge
  len : ℕ

/-- Modelled from the spec and Rust std: `u8::from_str_radix(c, 36)` on a
single character (standard library, not part of this repository);
case-insensitive base-36 digit value. -/
def digit36 (c : Char) : Option ℕ :=
  if '0' ≤ c ∧ c ≤ '9' then some (c.toNat - 48)
  else if 'a' ≤ c ∧ c ≤ 'z' then some (c.toNat - 97 + 10)
  else if 'A' ≤ c ∧ c ≤ 'Z' then some (c.toNat - 65 + 10)
  else none

/-- The scan of `CdBuilder::create_node`'s parenthesis branch: consume
characters up to and including the first `)`, returning the collected
characters (including the `)`), the index of the `)`, and the remaining
characters; `none` when the input ends first. -/
def scanParen : List (ℕ × Char) → Option (List Char × ℕ × List (ℕ × Char))
  | [] => none
  | (i, c) :: t =>
    if c = ')' then some ([c], i, t)
    else
      match scanParen t with
      | none => none
      | some (m, j, r) => some (c :: m, j, r)

/-- The tail of `CdBuilder::create_node`: after the new node index is
resolved (`newIdx`; `nodes` is the node list with any new node already
appended), add the pending edge if both slot fields are set — panicking,
as `petgraph::Graph::add_edge` does, if either endpoint is not a node of
the graph — and re-arm the slot with the current node. -/
def addNodeFinish (b : Builder) (nodes : List Node) (newIdx : ℕ)
    (rest : List (ℕ × Char)) : StepOut Builder :=
  match b.pendNode, b.pendEdge with
  | some p, some e =>
    if p < nodes.length ∧ newIdx < nodes.length then
      .ok { nodes := nodes, edges := b.edges ++ [(p, newIdx, e)], rest := rest,
            pendNode := some newIdx, pendEdge := none, len := b.len }
    else .crash
  | _, _ =>
    .ok { nodes := nodes, edges := b.edges, rest := rest,
          pendNode := some newIdx, pendEdge := none, len := b.len }

/-- `CdBuilder::create_node`: read one node token (parenthesized literal,
virtual `*`-reference, or single character) and update the graph and the
pending-edge slot. -/
noncomputable def createNode (b : Builder) : StepOut Builder :=
  match b.rest with
  | [] => .err (.UnexpectedEnding b.len)
  | (i, c) :: tl =>
    if c = '(' then
      match scanParen tl with
      | none => .err (.MismatchedParenthesis b.len)
      | some (mid, j, tl2) =>
        match NodeParse ('(' :: mid) j with
        | .crash => .crash
        | .err e => .err e
        | .ok nd => addNodeFinish b (b.nodes ++ [nd]) b.nodes.length tl2
    else if c = '*' then
      match tl with
      | [] => .err (.UnexpectedEnding b.len)
      | (j, d) :: tl2 =>
        match digit36 d with
        | none => .err (.InvalidSymbol j)
        | some v =>
          if v < 10 then .err (.InvalidSymbol j)
          else addNodeFinish b b.nodes (v - 10) tl2
    else
      match NodeParse [c] i with
      | .crash => .crash
      | .err e => .err e
      | .ok nd => addNodeFinish b (b.nodes ++ [nd]) b.nodes.length tl

/-- Result kind of `CdBuilder::create_edge`: a stored edge value
(`Ok(Some(()))`), a clean end of input (`Ok(None)`), a returned error, or
a panic. -/
inductive CeOut : Type
  | found
  | ended
  | failed (e : CdError)
  | crashed

/-- The scan loop of `CdBuilder::create_edge`: consume characters until
one that looks like a node start (`(`, `*`, or alphabetic) is peeked,
then parse the accumulated run as an edge value. Returns the remaining
characters (the node-start character still unconsumed) and `none` when
the input was exhausted. -/
def edgeScan (chars : List Char) :
    List (ℕ × Char) → List (ℕ × Char) × Option (StepOut Edge)
  | [] => ([], none)
  | (i, d) :: tl =>
    if d = '(' ∨ d = '*' ∨ d.isAlpha then ((i, d) :: tl, some (EdgeParse chars i))
    else edgeScan (chars ++ [d]) tl

/-- `CdBuilder::create_edge`: run the edge scan and store any parsed edge
value in the pending slot. On a parse error the characters consumed so
far stay consumed and the slot's value stays unset, as in the source. -/
def createEdge (b : Builder) : Builder × CeOut :=
  match edgeScan [] b.rest with
  | (rest2, none) => ({ b with rest := rest2 }, .ended)
  | (rest2, some (.ok e)) => ({ b with rest := rest2, pendEdge := some e }, .found)
  | (rest2, some (.err er)) => ({ b with rest := rest2 }, .failed er)
  | (_, some .crash) => (b, .crashed)

/-- The parse loop of `Cd::new`: alternate `create_node` and
`create_edge`; stop successfully when `create_edge` reports a clean end,
and — exactly as the source's `if let Ok(None)` — treat a `create_edge`
error the same as a stored edge, continuing the loop with the error
discarded. `fuel` bounds the iteration count; `cdNew` supplies enough for
the loop's actual termination measure (each iteration consumes at least
one character). -/
noncomputable def cdLoop : ℕ → Builder → StepOut Cd
  | 0, _ => .crash
  | fuel + 1, b =>
    match createNode b with
    | .crash => .crash
    | .err e => .err e
    | .ok b1 =>
      match createEdge b1 with
      | (b2, .ended) => .ok ⟨b2.nodes, b2.edges⟩
      | (_, .crashed) => .crash
      | (b2, .found) => cdLoop fuel b2
      | (b2, .failed _) => cdLoop fuel b2

/-- `Cd::new`: parse an input string (ASCII assumed, so byte offsets and
character offsets coincide). -/
noncomputable def cdNew (s : String) : StepOut Cd :=
  let cs := s.toList
  cdLoop (cs.length + 1)
    { nodes := [], edges := [], rest := cs.enum,
      pendNode := none, pendEdge := none, len := cs.length }

/-- `petgraph`'s `Graph::find_edge` on an undirected graph: walk the
first endpoint's outgoing adjacency list (edges inserted with source
`a`, newest first), then its incoming list (edges inserted with target
`a`, newest first), returning the first edge whose other endpoint is
`b`. -/
def findEdge (edges : List (ℕ × ℕ × Edge)) (a b : ℕ) : Option Edge :=
  match edges.reverse.find? (fun e => e.1 == a && e.2.1 == b) with
  | some e => some e.2.2
  | none => (edges.reverse.find? (fun e => e.2.1 == a && e.1 == b)).map (fun e => e.2.2)

/-- `Cd::cox`: entry `(i, j)` of the Coxeter matrix — `1` on the
diagonal, the value of the edge found between `i` and `j` when one
exists, else `2`. -/
def coxEntry (cd : Cd) (i j : ℕ) : ℚ :=
  if i = j then 1
  else
    match findEdge cd.edges i j with
    | some e => e.value
    | none => 2

/-- At most one edge between any pair of nodes, in the sense that any two
edges connecting the same unordered pair of node indices carry the same
endpoints-plus-value data (the invariant §3 of the spec claims for the
diagram graph). -/
def pairUnique (edges : List (ℕ × ℕ × Edge)) : Prop :=
  ∀ e1 ∈ edges, ∀ e2 ∈ edges,
    ((e1.1 = e2.1 ∧ e1.2.1 = e2.2.1) ∨ (e1.1 = e2.2.1 ∧ e1.2.1 = e2.1)) → e1 = e2

instance (edges : List (ℕ × ℕ × Edge)) : Decidable (pairUnique edges) := by
  unfold pairUnique
  infer_instance

/-! ### Geometry deriver (§4.5): normals, circumradius, generator

`f64` arithmetic is modelled over `ℝ`. Square matrices built column by
column are represented as `ℕ → ℕ → ℝ` (entries outside the dimension are
`0`), which matches the source's dense zero-initialized matrix. -/

/-- Modelled from the spec: the crate-root constant `Float::EPS` (the
"small epsilon" of §4.5) is declared outside `src/`; its exact value is
immaterial here — the development only uses `0 < EPS < 1/2` — and it is
modelled as `1e-9`. -/
noncomputable def EPS : ℝ := 1 / 1000000000

/-- Dot product of a stored column prefix (a list, row `k` at position
`k`) against the rows of another column. -/
noncomputable def dotl (l : List ℝ) (f : ℕ → ℝ) : ℝ :=
  (l.enum.map (fun p => p.2 * f p.1)).sum

/-- Sum of squares of a stored column prefix (`norm_squared` of a column
whose remaining entries are zero). -/
noncomputable def sumSq (l : List ℝ) : ℝ := (l.map (fun x => x * x)).sum

/-- The inner loop of `CoxMatrix::normals` building column `i`: entry
`j` of column `i` is `(cos (π / M i j) - dot) / mat j j`, where `dot` is
the dot product of the entries of column `i` built so far against column
`j` of the partial matrix. `colList M mat i m` is the list of the first
`m` entries (rows `0..m-1`) of column `i`. -/
noncomputable def colList (M mat : ℕ → ℕ → ℝ) (i : ℕ) : ℕ → List ℝ
  | 0 => []
  | j + 1 =>
    let prev := colList M mat i j
    prev ++ [(Real.cos (Real.pi / M i j) - dotl prev (fun k => mat k j)) / mat j j]

/-- The full sub-diagonal part of column `i` (rows `0..i-1`). -/
noncomputable def colEntries (M mat : ℕ → ℕ → ℝ) (i : ℕ) : List ℝ :=
  colList M mat i i

/-- The `norm_squared` the source tests against `1 - EPS` for column
`i`. -/
noncomputable def colSumSq (M mat : ℕ → ℕ → ℝ) (i : ℕ) : ℝ :=
  sumSq (colEntries M mat i)

/-- Write column `i` into the matrix: rows `0..i-1` from the computed
list, the diagonal entry `d`, rows below the diagonal left `0`. -/
noncomputable def setCol (mat : ℕ → ℕ → ℝ) (i : ℕ) (col : List ℝ) (d : ℝ) :
    ℕ → ℕ → ℝ :=
  fun r c => if c = i then (if r = i then d else col.getD r 0) else mat r c

/-- The outer loop of `CoxMatrix::normals` after processing columns
`0..k-1`: `none` as soon as some column's sum of squares reaches
`1 - EPS`, else the partial matrix with the diagonal entry
`√(1 - norm_sq)`. -/
noncomputable def normalsUpTo (M : ℕ → ℕ → ℝ) : ℕ → Option (ℕ → ℕ → ℝ)
  | 0 => some (fun _ _ => 0)
  | i + 1 =>
    match normalsUpTo M i with
    | none => none
    | some mat =>
      if 1 - EPS ≤ colSumSq M mat i then none
      else some (setCol mat i (colEntries M mat i) (Real.sqrt (1 - colSumSq M mat i)))

/-- `CoxMatrix::normals` on an `n × n` Coxeter matrix `M`. -/
noncomputable def normalsF (M : ℕ → ℕ → ℝ) (n : ℕ) : Option (ℕ → ℕ → ℝ) :=
  normalsUpTo M n

/-- `nalgebra`'s `solve_upper_triangular_mut` (external library, modelled
at its documented semantics): back-substitution from row `i-1` downwards,
returning `none` the moment a zero diagonal entry is met, else the
updated vector. -/
noncomputable def solveUTAux (N : ℕ → ℕ → ℝ) : ℕ → (ℕ → ℝ) → Option (ℕ → ℝ)
  | 0, b => some b
  | i + 1, b =>
    if N i i = 0 then none
    else
      solveUTAux N i
        (fun r => if r = i then b i / N i i
                  else if r < i then b r - (b i / N i i) * N r i else b r)

/-- Solve the upper-triangular system `N · x = v` of dimension `n`. -/
noncomputable def solveUT (N : ℕ → ℕ → ℝ) (v : ℕ → ℝ) (n : ℕ) : Option (ℕ → ℝ) :=
  solveUTAux N n v

/-- `Cd::generator`'s computational core: compute the normals of `M` and
solve the upper-triangular system against the node vector `v`. -/
noncomputable def generatorM (M : ℕ → ℕ → ℝ) (n : ℕ) (v : ℕ → ℝ) : Option (ℕ → ℝ) :=
  match normalsF M n with
  | none => none
  | some N => solveUT N v n

/-- The entrywise Schläfli transform `v ↦ cos (π / v)` of
`Cd::circumradius` (applied to every entry, the diagonal included, as the
source's `iter_mut` loop does). -/
noncomputable def schlafliOf (n : ℕ) (M : Matrix (Fin n) (Fin n) ℝ) :
    Matrix (Fin n) (Fin n) ℝ :=
  M.map (fun x => Real.cos (Real.pi / x))

/-- The squared radius of `Cd::circumradius`:
`(v ᵀ · S⁻¹ · v) / -4` for the inverted Schläfli matrix `S`. -/
noncomputable def sqRadius (n : ℕ) (M : Matrix (Fin n) (Fin n) ℝ) (v : Fin n → ℝ) : ℝ :=
  (∑ i, ∑ j, v i * (schlafliOf n M)⁻¹ i j * v j) / (-4)

/-- `Cd::circumradius`'s computational core over the Coxeter matrix `M`
and node vector `v`: `none` for a singular Schläfli matrix
(`try_inverse_mut` failing), `none` for `r² < -EPS`, `√r²` for
`r² > EPS`, else exactly `0`. -/
noncomputable def circumradiusM (n : ℕ) (M : Matrix (Fin n) (Fin n) ℝ)
    (v : Fin n → ℝ) : Option ℝ :=
  if (schlafliOf n M).det = 0 then none
  else if sqRadius n M v < -EPS then none
  else if EPS < sqRadius n M v then some (Real.sqrt (sqRadius n M v))
  else some 0

/-- `Cd::node_vector`: the node values in node order (entries past the
dimension are `0`). -/
noncomputable def Cd.nodeVector (cd : Cd) : ℕ → ℝ :=
  fun i => (cd.nodes.getD i .Unringed).value

/-- The parsed Coxeter matrix as a real-valued matrix (the source's
`f64` matrix). -/
noncomputable def Cd.coxR (cd : Cd) : ℕ → ℕ → ℝ :=
  fun i j => ((coxEntry cd i j : ℚ) : ℝ)

/-- `Cd::cox().normals()`. -/
noncomputable def Cd.normals (cd : Cd) : Option (ℕ → ℕ → ℝ) :=
  normalsF cd.coxR cd.dim

/-- `Cd::generator`. -/
noncomputable def Cd.generator (cd : Cd) : Option (ℕ → ℝ) :=
  generatorM cd.coxR cd.dim cd.nodeVector

/-- `Cd::circumradius`. -/
noncomputable def Cd.circumradius (cd : Cd) : Option ℝ :=
  circumradiusM cd.dim (Matrix.of fun i j => cd.coxR i j) (fun i => cd.nodeVector i)

/-! ### Theorems -/

/-- `Edge.value` is exactly the division of the casts, as written in the
source. -/
theorem Edge.value_eq_div (e : Edge) : e.value = (e.num : ℚ) / (e.den : ℚ) :=
  Rat.divInt_eq_div e.num e.den

/-- `find?` only depends on the predicate pointwise. -/
lemma find?_ext {α : Type} (p q : α → Bool) (h : ∀ x, p x = q x) :
    ∀ l : List α, l.find? p = l.find? q := by
  intro l
  induction l with
  | nil => rfl
  | cons a t ih =>
    rw [List.find?_cons, List.find?_cons, h a, ih]

/-- If no `)` occurs, the parenthesis scan fails. -/
lemma scanParen_none (tl : List (ℕ × Char)) (h : ∀ p ∈ tl, p.2 ≠ ')') :
    scanParen tl = none := by
  induction tl with
  | nil => rfl
  | cons a t ih =>
    rw [scanParen, if_neg (h a (by simp)), ih (fun p hp => h p (by simp [hp]))]

/-- Claim C1 (code bug): the spec says a digit run with one `/` parses as
`numerator/denominator` (so `"x5/2x"` should give Coxeter entry `5/2`),
but `Edge::parse` pushes the `/` onto the freshly-reset accumulator, so
the denominator run `"/2"` never parses as an integer: the fraction fails
with `ParseError`, `Cd::new` swallows the edge error, and `"x5/2x"`
parses with no edge at all — the Coxeter entry is the default `2`, not
`5/2 = 2.5`. -/
theorem claim1_fraction_edge_lost :
    EdgeParse ['5', '/', '2'] 4 = .err (.ParseError 4) ∧
    cdNew "x5/2x" = .ok ⟨[.Ringed 1, .Ringed 1], []⟩ ∧
    coxEntry ⟨[.Ringed 1, .Ringed 1], []⟩ 0 1 = 2 :=
  ⟨rfl, rfl, by decide⟩

/-- Claim C2, counterexample: `"x!x"` has an edge run starting with `!`
(neither digit nor whitespace), yet `Cd::new` succeeds — it does not
fail with `InvalidSymbol`, refuting the claim that edge-run errors are
terminal. -/
theorem claim2_counterexample :
    cdNew "x!x" = .ok ⟨[.Ringed 1, .Ringed 1], []⟩ :=
  rfl

/-- Claim C2, amended: decoding the edge run `"!"` does raise
`InvalidSymbol` (at the peeked offset), but `Cd::new`'s
`if let Ok(None) = create_edge()` discards `create_edge` errors, so the
parse continues with the pending edge value unset: `"x!x"` succeeds with
two nodes, no edge, and default Coxeter entry `2`. Edge-run parse errors
are not terminal for the parse attempt. -/
theorem claim2_amended_edge_errors_swallowed :
    EdgeParse ['!'] 2 = .err (.InvalidSymbol 2) ∧
    createEdge ⟨[.Ringed 1], [], [(1, '!'), (2, 'x')], some 0, none, 3⟩ =
      (⟨[.Ringed 1], [], [(2, 'x')], some 0, none, 3⟩, .failed (.InvalidSymbol 2)) ∧
    cdNew "x!x" = .ok ⟨[.Ringed 1, .Ringed 1], []⟩ ∧
    coxEntry ⟨[.Ringed 1, .Ringed 1], []⟩ 0 1 = 2 :=
  ⟨rfl, rfl, rfl, by decide⟩

/-- Claim C4, counterexample: `"x3o3*a"` is accepted and closing an edge
through the virtual back-reference `*a` onto the already-connected pair
`{0, 1}` adds a second parallel edge: two list entries connect the
pair. -/
theorem claim4_counterexample :
    cdNew "x3o3*a" = .ok ⟨[.Ringed 1, .Unringed], [(0, 1, ⟨3, 1⟩), (1, 0, ⟨3, 1⟩)]⟩ ∧
    2 ≤ (Cd.mk [.Ringed 1, .Unringed] [(0, 1, ⟨3, 1⟩), (1, 0, ⟨3, 1⟩)]).edges.countP
          (fun e => (e.1 == 0 && e.2.1 == 1) || (e.1 == 1 && e.2.1 == 0)) :=
  ⟨rfl, by decide⟩

/-- Claim C4, amended: the parsed graph may hold parallel edges — a
virtual back-reference onto an already-connected pair adds a second edge
between the same node indices (`petgraph::Graph::add_edge` never
deduplicates), as `"x3o3*a"` shows; the node count always equals the
diagram's rank (`Cd::dim`). -/
theorem claim4_amended_parallel_edges :
    (∀ cd : Cd, cd.dim = cd.nodes.length) ∧
    cdNew "x3o3*a" = .ok ⟨[.Ringed 1, .Unringed], [(0, 1, ⟨3, 1⟩), (1, 0, ⟨3, 1⟩)]⟩ ∧
    (Cd.mk [.Ringed 1, .Unringed] [(0, 1, ⟨3, 1⟩), (1, 0, ⟨3, 1⟩)]).dim = 2 :=
  ⟨fun _ => rfl, rfl, rfl⟩

/-- Claim C5: `"x3o3o3o3o *c3o"` parses into six nodes
`[Ringed 1, Unringed, Unringed, Unringed, Unringed, Unringed]` — the
plain space before `*c` closes the pending edge as "no edge" (its edge
run fails and is swallowed, leaving the default value `2`), the virtual
reference `*c` reuses node index `2` without creating a node — and the
Coxeter matrix is exactly the claimed one. -/
theorem claim5_e6_diagram :
    cdNew "x3o3o3o3o *c3o" =
      .ok ⟨[.Ringed 1, .Unringed, .Unringed, .Unringed, .Unringed, .Unringed],
           [(0, 1, ⟨3, 1⟩), (1, 2, ⟨3, 1⟩), (2, 3, ⟨3, 1⟩), (3, 4, ⟨3, 1⟩), (2, 5, ⟨3, 1⟩)]⟩ ∧
    (Cd.mk [.Ringed 1, .Unringed, .Unringed, .Unringed, .Unringed, .Unringed]
           [(0, 1, ⟨3, 1⟩), (1, 2, ⟨3, 1⟩), (2, 3, ⟨3, 1⟩), (3, 4, ⟨3, 1⟩), (2, 5, ⟨3, 1⟩)]).dim
      = 6 ∧
    (List.range 6).map (fun i => (List.range 6).map (fun j =>
        coxEntry
          ⟨[.Ringed 1, .Unringed, .Unringed, .Unringed, .Unringed, .Unringed],
           [(0, 1, ⟨3, 1⟩), (1, 2, ⟨3, 1⟩), (2, 3, ⟨3, 1⟩), (3, 4, ⟨3, 1⟩), (2, 5, ⟨3, 1⟩)]⟩
          i j)) =
      [[1, 3, 2, 2, 2, 2], [3, 1, 3, 2, 2, 2], [2, 3, 1, 3, 2, 3],
       [2, 2, 3, 1, 3, 2], [2, 2, 2, 3, 1, 2], [2, 2, 3, 2, 2, 1]] :=
  ⟨rfl, rfl, by decide⟩

/-- Claim C9: `Cd::new` never checks that a `*a..*z` virtual reference
resolves to an existing node: on `"x3*z"` the referenced index `25`
exceeds the single created node, the pending edge value `3` is armed, and
`create_node` hands `add_edge` a nonexistent endpoint —
`petgraph::Graph::add_edge` panics, so the parse crashes instead of
returning a `CdError`. -/
theorem claim9_virtual_reference_panics :
    cdNew "x3*z" = .crash :=
  rfl

/-- Claim C8: an input that ends inside a parenthesized node literal
fails with `MismatchedParenthesis` at the offset of end-of-input (the
builder's stored input length). The first conjunct is the general
builder-level statement — whenever `create_node` meets a `(` with no `)`
in the remaining input, it returns exactly that error — and the second is
the spec's concrete instance `"(1.0"` (length 4). -/
theorem claim8_unmatched_parenthesis :
    (∀ (b : Builder) (i : ℕ) (tl : List (ℕ × Char)),
      b.rest = (i, '(') :: tl → (∀ p ∈ tl, p.2 ≠ ')') →
      createNode b = .err (.MismatchedParenthesis b.len)) ∧
    cdNew "(1.0" = .err (.MismatchedParenthesis 4) := by
  constructor
  · rintro ⟨nodes, edges, rest, pn, pe, len⟩ i tl hrest hnp
    obtain rfl : rest = (i, '(') :: tl := hrest
    simp [createNode, scanParen_none tl hnp]
  · rfl

/-- Witness for `claim8_unmatched_parenthesis`: its general conjunct at a
concrete builder state. -/
theorem claim8_witness :
    createNode ⟨[], [], [(0, '('), (1, '1')], none, none, 9⟩ =
      .err (.MismatchedParenthesis 9) :=
  claim8_unmatched_parenthesis.1 _ 0 [(1, '1')] rfl (by decide)

/-- Elements found by the two directional passes of `findEdge` satisfy
their predicates and belong to the list. -/
lemma find?_pair {E : List (ℕ × ℕ × Edge)} {x : ℕ × ℕ × Edge}
    {p : ℕ × ℕ × Edge → Bool} (h : E.reverse.find? p = some x) :
    x ∈ E ∧ p x = true :=
  ⟨List.mem_reverse.mp (List.mem_of_find?_eq_some h), List.find?_some h⟩

/-- Under the at-most-one-edge-per-pair invariant, `petgraph`'s
`find_edge` is symmetric in its endpoints. -/
lemma findEdge_comm (E : List (ℕ × ℕ × Edge)) (h : pairUnique E) (i j : ℕ) :
    findEdge E i j = findEdge E j i := by
  unfold findEdge
  have e1 : E.reverse.find? (fun e => e.1 == j && e.2.1 == i) =
      E.reverse.find? (fun e => e.2.1 == i && e.1 == j) :=
    find?_ext _ _ (fun (x : ℕ × ℕ × Edge) => Bool.and_comm (x.1 == j) (x.2.1 == i)) _
  have e2 : E.reverse.find? (fun e => e.2.1 == j && e.1 == i) =
      E.reverse.find? (fun e => e.1 == i && e.2.1 == j) :=
    find?_ext _ _ (fun (x : ℕ × ℕ × Edge) => Bool.and_comm (x.2.1 == j) (x.1 == i)) _
  rw [e1, e2]
  cases hA : E.reverse.find? (fun e => e.1 == i && e.2.1 == j) with
  | none =>
    cases hB : E.reverse.find? (fun e => e.2.1 == i && e.1 == j) with
    | none => simp
    | some y => simp
  | some x =>
    cases hB : E.reverse.find? (fun e => e.2.1 == i && e.1 == j) with
    | none => simp
    | some y =>
      obtain ⟨hxm, hxp⟩ := find?_pair hA
      obtain ⟨hym, hyp⟩ := find?_pair hB
      simp only [Bool.and_eq_true, beq_iff_eq] at hxp hyp
      have hxy : x = y :=
        h x hxm y hym (Or.inr ⟨hxp.1.trans hyp.1.symm, hxp.2.trans hyp.2.symm⟩)
      simp [hxy]

/-- Claim C3, counterexample: `"x3o4*a"` is accepted by `Cd::new`, but
its Coxeter matrix is not symmetric — the virtual back-reference stored a
second parallel edge with a different value, and `find_edge` reads the
`(0,1)` entry off node 0's outgoing list (value `3`) but the `(1,0)`
entry off node 1's outgoing list (value `4`). -/
theorem claim3_counterexample :
    cdNew "x3o4*a" = .ok ⟨[.Ringed 1, .Unringed], [(0, 1, ⟨3, 1⟩), (1, 0, ⟨4, 1⟩)]⟩ ∧
    coxEntry ⟨[.Ringed 1, .Unringed], [(0, 1, ⟨3, 1⟩), (1, 0, ⟨4, 1⟩)]⟩ 0 1 = 3 ∧
    coxEntry ⟨[.Ringed 1, .Unringed], [(0, 1, ⟨3, 1⟩), (1, 0, ⟨4, 1⟩)]⟩ 1 0 = 4 ∧
    coxEntry ⟨[.Ringed 1, .Unringed], [(0, 1, ⟨3, 1⟩), (1, 0, ⟨4, 1⟩)]⟩ 0 1 ≠
      coxEntry ⟨[.Ringed 1, .Unringed], [(0, 1, ⟨3, 1⟩), (1, 0, ⟨4, 1⟩)]⟩ 1 0 :=
  ⟨rfl, by decide, by decide, by decide⟩

/-- Claim C3, amended: the Coxeter matrix of a parsed diagram has `1` on
the diagonal and, off the diagonal, the value of the edge `find_edge`
locates between `i` and `j` (default `2` when none); its dimension is the
node count. It is symmetric provided the diagram has at most one edge
between each pair of nodes — which parallel edges created through virtual
back-references can violate. -/
theorem claim3_cox_matrix (cd : Cd) (i j : ℕ) :
    cd.dim = cd.nodes.length ∧
    coxEntry cd i i = 1 ∧
    (i ≠ j → coxEntry cd i j = (findEdge cd.edges i j).elim 2 Edge.value) ∧
    (pairUnique cd.edges → coxEntry cd i j = coxEntry cd j i) := by
  refine ⟨rfl, by simp [coxEntry], fun hne => ?_, fun hu => ?_⟩
  · unfold coxEntry
    rw [if_neg hne]
    cases findEdge cd.edges i j <;> simp
  · unfold coxEntry
    by_cases hij : i = j
    · subst hij; simp
    · rw [if_neg hij, if_neg (fun hj => hij hj.symm), findEdge_comm _ hu]

/-- Witness for `claim3_cox_matrix`: the diagram of `"x3o3x"`, whose
edge list does satisfy the single-edge invariant. -/
theorem claim3_witness :
    coxEntry ⟨[.Ringed 1, .Unringed, .Ringed 1], [(0, 1, ⟨3, 1⟩), (1, 2, ⟨3, 1⟩)]⟩ 0 2 =
      (findEdge [(0, 1, ⟨3, 1⟩), (1, 2, ⟨3, 1⟩)] 0 2).elim 2 Edge.value ∧
    coxEntry ⟨[.Ringed 1, .Unringed, .Ringed 1], [(0, 1, ⟨3, 1⟩), (1, 2, ⟨3, 1⟩)]⟩ 0 2 =
      coxEntry ⟨[.Ringed 1, .Unringed, .Ringed 1], [(0, 1, ⟨3, 1⟩), (1, 2, ⟨3, 1⟩)]⟩ 2 0 :=
  ⟨(claim3_cox_matrix ⟨[.Ringed 1, .Unringed, .Ringed 1],
      [(0, 1, ⟨3, 1⟩), (1, 2, ⟨3, 1⟩)]⟩ 0 2).2.2.1 (by decide),
   (claim3_cox_matrix ⟨[.Ringed 1, .Unringed, .Ringed 1],
      [(0, 1, ⟨3, 1⟩), (1, 2, ⟨3, 1⟩)]⟩ 0 2).2.2.2 (by decide)⟩

/-- `EPS` is strictly positive (and below `1/2`). -/
lemma EPS_pos : 0 < EPS ∧ EPS < 1 / 2 := by norm_num [EPS]

/-- Claim C6: `circumradius` yields no result when the Schläfli matrix
(the Coxeter matrix mapped entrywise by `v ↦ cos (π / v)`) is singular,
and likewise when `r² = (vᵀ · S⁻¹ · v) / -4` falls below `-EPS`; it
yields exactly `0` when `|r²| ≤ EPS`, and `√r²` otherwise — hence every
returned value is non-negative. -/
theorem claim6_circumradius (n : ℕ) (M : Matrix (Fin n) (Fin n) ℝ) (v : Fin n → ℝ) :
    ((schlafliOf n M).det = 0 → circumradiusM n M v = none) ∧
    (sqRadius n M v < -EPS → circumradiusM n M v = none) ∧
    ((schlafliOf n M).det ≠ 0 → |sqRadius n M v| ≤ EPS →
      circumradiusM n M v = some 0) ∧
    ((schlafliOf n M).det ≠ 0 → EPS < sqRadius n M v →
      circumradiusM n M v = some (Real.sqrt (sqRadius n M v))) ∧
    (∀ r, circumradiusM n M v = some r → 0 ≤ r) := by
  unfold circumradiusM
  refine ⟨fun h => by rw [if_pos h], fun h => ?_, fun hdet h => ?_, fun hdet h => ?_,
    fun r hr => ?_⟩
  · by_cases hdet : (schlafliOf n M).det = 0
    · rw [if_pos hdet]
    · rw [if_neg hdet, if_pos h]
  · obtain ⟨h1, h2⟩ := abs_le.mp h
    rw [if_neg hdet, if_neg (by linarith), if_neg (by linarith)]
  · have hE := EPS_pos.1
    rw [if_neg hdet, if_neg (by linarith), if_pos h]
  · split_ifs at hr
    all_goals
      obtain rfl := Option.some.inj hr
    · exact Real.sqrt_nonneg _
    · exact le_refl _

/-- Witness for `claim6_circumradius`: the one-node diagram with ringed
value `2` (`"u"`) has Schläfli matrix `[[cos (π/2)]] = [[0]]`, which is
singular, so the circumradius is no result. -/
theorem claim6_witness :
    circumradiusM 1 (Matrix.of !![(2 : ℝ)]) (fun _ => 1) = none :=
  (claim6_circumradius 1 (Matrix.of !![(2 : ℝ)]) (fun _ => 1)).1 (by
    simp [schlafliOf, Matrix.det_fin_one, Real.cos_pi_div_two])

/-- The length of a built column prefix. -/
lemma colList_length (M mat : ℕ → ℕ → ℝ) (i : ℕ) :
    ∀ m, (colList M mat i m).length = m := by
  intro m
  induction m with
  | zero => rfl
  | succ m ih => simp [colList, ih]

/-- Base case of the normals loop: the zero matrix. -/
lemma normalsUpTo_zero (M : ℕ → ℕ → ℝ) :
    normalsUpTo M 0 = some (fun _ _ => 0) := rfl

/-- One step of the normals loop, unfolded. -/
lemma normalsUpTo_succ (M : ℕ → ℕ → ℝ) (i : ℕ) :
    normalsUpTo M (i + 1) =
      match normalsUpTo M i with
      | none => none
      | some mat =>
        if 1 - EPS ≤ colSumSq M mat i then none
        else some (setCol mat i (colEntries M mat i)
          (Real.sqrt (1 - colSumSq M mat i))) := rfl

/-- `setCol` reads: the written column. -/
lemma setCol_same (mat : ℕ → ℕ → ℝ) (i : ℕ) (col : List ℝ) (d : ℝ) (r : ℕ) :
    setCol mat i col d r i = if r = i then d else col.getD r 0 := by
  unfold setCol
  rw [if_pos rfl]

/-- `setCol` reads: untouched columns. -/
lemma setCol_other (mat : ℕ → ℕ → ℝ) (i : ℕ) (col : List ℝ) (d : ℝ)
    (r c : ℕ) (h : c ≠ i) : setCol mat i col d r c = mat r c := by
  unfold setCol
  rw [if_neg h]

/-- A successful step of the normals loop unpacks into a successful
previous state, a sum of squares strictly below `1 - EPS`, and the
column write. -/
lemma normalsUpTo_succ_some {M : ℕ → ℕ → ℝ} {i : ℕ} {N : ℕ → ℕ → ℝ}
    (h : normalsUpTo M (i + 1) = some N) :
    ∃ mat, normalsUpTo M i = some mat ∧ colSumSq M mat i < 1 - EPS ∧
      N = setCol mat i (colEntries M mat i) (Real.sqrt (1 - colSumSq M mat i)) := by
  cases hm : normalsUpTo M i with
  | none =>
    simp only [normalsUpTo_succ, hm] at h
    exact Option.noConfusion h
  | some mat =>
    simp only [normalsUpTo_succ, hm] at h
    by_cases hc : 1 - EPS ≤ colSumSq M mat i
    · rw [if_pos hc] at h
      exact Option.noConfusion h
    · rw [if_neg hc] at h
      exact ⟨mat, rfl, lt_of_not_le hc, (Option.some.inj h).symm⟩

/-- A failing step of the normals loop. -/
lemma normalsUpTo_step_none {M : ℕ → ℕ → ℝ} {mat : ℕ → ℕ → ℝ} {i : ℕ}
    (h : normalsUpTo M i = some mat) (hge : 1 - EPS ≤ colSumSq M mat i) :
    normalsUpTo M (i + 1) = none := by
  simp only [normalsUpTo_succ, h]
  rw [if_pos hge]

/-- A succeeding step of the normals loop. -/
lemma normalsUpTo_step_some {M : ℕ → ℕ → ℝ} {mat : ℕ → ℕ → ℝ} {i : ℕ}
    (h : normalsUpTo M i = some mat) (hlt : ¬ (1 - EPS ≤ colSumSq M mat i)) :
    normalsUpTo M (i + 1) =
      some (setCol mat i (colEntries M mat i)
        (Real.sqrt (1 - colSumSq M mat i))) := by
  simp only [normalsUpTo_succ, h]
  rw [if_neg hlt]

/-- The normals loop fails exactly when some column's sum of squares
reaches `1 - EPS`. -/
lemma normalsUpTo_none_iff (M : ℕ → ℕ → ℝ) (n : ℕ) :
    normalsUpTo M n = none ↔
      ∃ i, i < n ∧ ∃ mat, normalsUpTo M i = some mat ∧
        1 - EPS ≤ colSumSq M mat i := by
  induction n with
  | zero => simp [normalsUpTo_zero]
  | succ n ih =>
    constructor
    · intro h
      cases hm : normalsUpTo M n with
      | none =>
        obtain ⟨i, hi, w⟩ := ih.mp hm
        exact ⟨i, Nat.lt_succ_of_lt hi, w⟩
      | some mat =>
        simp only [normalsUpTo_succ, hm] at h
        by_cases hc : 1 - EPS ≤ colSumSq M mat n
        · exact ⟨n, Nat.lt_succ_self n, mat, hm, hc⟩
        · rw [if_neg hc] at h
          exact Option.noConfusion h
    · rintro ⟨i, hi, mat, hmat, hge⟩
      rcases Nat.lt_succ_iff_lt_or_eq.mp hi with hlt | heq
      · simp only [normalsUpTo_succ, ih.mpr ⟨i, hlt, mat, hmat, hge⟩]
      · subst heq
        simp only [normalsUpTo_succ, hmat]
        rw [if_pos hge]

/-- Any matrix produced after `k` steps of the normals loop is zero on
columns not yet written and strictly below the diagonal. -/
lemma normalsUpTo_zero_entries (M : ℕ → ℕ → ℝ) :
    ∀ k N, normalsUpTo M k = some N →
      ∀ r c, (k ≤ c ∨ c < r) → N r c = 0 := by
  intro k
  induction k with
  | zero =>
    intro N h r c _
    rw [normalsUpTo_zero] at h
    obtain rfl := Option.some.inj h
    rfl
  | succ k ih =>
    intro N h r c hc
    obtain ⟨mat, hmat, _, rfl⟩ := normalsUpTo_succ_some h
    by_cases hck : c = k
    · subst hck
      have hr : c < r := by omega
      rw [setCol_same, if_neg (by omega)]
      exact List.getD_eq_default _ _ (by rw [colEntries, colList_length]; omega)
    · rw [setCol_other _ _ _ _ _ _ hck]
      exact ih mat hmat r c (by omega)

/-- Later steps of the normals loop do not change already-written
columns. -/
lemma normalsUpTo_back (M : ℕ → ℕ → ℝ) :
    ∀ k j N, j ≤ k → normalsUpTo M k = some N →
      ∃ mat, normalsUpTo M j = some mat ∧ ∀ r c, c < j → N r c = mat r c := by
  intro k
  induction k with
  | zero =>
    intro j N hj h
    obtain rfl : j = 0 := Nat.le_zero.mp hj
    exact ⟨N, h, fun r c _ => rfl⟩
  | succ k ih =>
    intro j N hj h
    rcases Nat.lt_succ_iff_lt_or_eq.mp (Nat.lt_succ_of_le hj) with hlt | heq
    · obtain ⟨mat, hmat, _, rfl⟩ := normalsUpTo_succ_some h
      obtain ⟨mat2, hmat2, hagree⟩ := ih j mat (by omega) hmat
      refine ⟨mat2, hmat2, fun r c hc => ?_⟩
      rw [setCol_other _ _ _ _ _ _ (by omega)]
      exact hagree r c hc
    · exact ⟨N, heq ▸ h, fun r c _ => rfl⟩

/-- The diagonal of a completed normals matrix: entry `(i, i)` is the
square root of `1` minus that column's sum of squares, which passed the
`< 1 - EPS` test. -/
lemma normalsF_diag (M : ℕ → ℕ → ℝ) (n : ℕ) (N : ℕ → ℕ → ℝ)
    (h : normalsF M n = some N) (i : ℕ) (hi : i < n) :
    ∃ mat, normalsUpTo M i = some mat ∧ colSumSq M mat i < 1 - EPS ∧
      N i i = Real.sqrt (1 - colSumSq M mat i) := by
  obtain ⟨P, hP, hagree⟩ := normalsUpTo_back M n (i + 1) N hi h
  obtain ⟨mat, hmat, hlt, rfl⟩ := normalsUpTo_succ_some hP
  refine ⟨mat, hmat, hlt, ?_⟩
  rw [hagree i i (Nat.lt_succ_self i), setCol_same, if_pos rfl]

/-- The `"x1x"` boundary instance: after one successful column, the
second column's sum of squares is exactly `1`. -/
lemma colSumSq_boundary :
    colSumSq (fun _ _ => (1 : ℝ))
      (setCol (fun _ _ => 0) 0 (colEntries (fun _ _ => 1) (fun _ _ => 0) 0)
        (Real.sqrt (1 - colSumSq (fun _ _ => 1) (fun _ _ => 0) 0))) 1 = 1 := by
  have hsum0 : colSumSq (fun _ _ => (1 : ℝ)) (fun _ _ => 0) 0 = 0 := by
    simp [colSumSq, colEntries, colList, sumSq]
  simp only [colSumSq, colEntries, colList, sumSq, dotl, setCol, hsum0]
  norm_num [Real.cos_pi]

/-- Claim C7: `normals` yields no result exactly when, for some column
`i`, the sum of squares of the entries computed for rows `0..i-1`
reaches `1 - EPS`; a sum equal to exactly `1` fails (the `[[1,1],[1,1]]`
Coxeter matrix of `"x1x"` realizes it), while a sum at most
`1 - 2·EPS` — several epsilons below `1` — succeeds, the written
diagonal entry being `√(1 - sum)`; a returned matrix is upper
triangular with those diagonal entries. -/
theorem claim7_normals (M : ℕ → ℕ → ℝ) (n : ℕ) :
    (normalsF M n = none ↔
      ∃ i, i < n ∧ ∃ mat, normalsUpTo M i = some mat ∧
        1 - EPS ≤ colSumSq M mat i) ∧
    (∀ (i : ℕ) (mat : ℕ → ℕ → ℝ), normalsUpTo M i = some mat →
      colSumSq M mat i ≤ 1 - 2 * EPS →
      ∃ mat2, normalsUpTo M (i + 1) = some mat2 ∧
        mat2 i i = Real.sqrt (1 - colSumSq M mat i)) ∧
    (∀ N, normalsF M n = some N →
      (∀ r c, c < r → N r c = 0) ∧
      ∀ i, i < n → ∃ mat, normalsUpTo M i = some mat ∧
        N i i = Real.sqrt (1 - colSumSq M mat i)) ∧
    (∃ mat, normalsUpTo (fun _ _ => 1) 1 = some mat ∧
      colSumSq (fun _ _ => 1) mat 1 = 1 ∧ normalsF (fun _ _ => 1) 2 = none) := by
  refine ⟨normalsUpTo_none_iff M n, fun i mat hmat hle => ?_, fun N h => ?_, ?_⟩
  · have hE := EPS_pos.1
    refine ⟨setCol mat i (colEntries M mat i) (Real.sqrt (1 - colSumSq M mat i)),
      normalsUpTo_step_some hmat (by linarith), ?_⟩
    rw [setCol_same, if_pos rfl]
  · exact ⟨fun r c hc => normalsUpTo_zero_entries M n N h r c (Or.inr hc),
      fun i hi => (normalsF_diag M n N h i hi).imp
        (fun mat w => ⟨w.1, w.2.2⟩)⟩
  · have hsum0 : colSumSq (fun _ _ => (1 : ℝ)) (fun _ _ => 0) 0 = 0 := by
      simp [colSumSq, colEntries, colList, sumSq]
    have h1 : normalsUpTo (fun _ _ => (1 : ℝ)) 1 =
        some (setCol (fun _ _ => 0) 0 (colEntries (fun _ _ => 1) (fun _ _ => 0) 0)
          (Real.sqrt (1 - colSumSq (fun _ _ => 1) (fun _ _ => 0) 0))) :=
      normalsUpTo_step_some (normalsUpTo_zero _)
        (by rw [hsum0]; norm_num [EPS])
    refine ⟨_, h1, colSumSq_boundary, ?_⟩
    show normalsUpTo (fun _ _ => (1 : ℝ)) (1 + 1) = none
    exact normalsUpTo_step_none h1
      (by rw [colSumSq_boundary]; norm_num [EPS])

/-- Witness for `claim7_normals`: its succeeding-step conjunct at the
all-ones matrix, column `0` (sum of squares `0`, comfortably below
`1 - EPS`). -/
theorem claim7_witness :
    ∃ mat2, normalsUpTo (fun _ _ => (1 : ℝ)) (0 + 1) = some mat2 ∧
      mat2 0 0 = Real.sqrt (1 - colSumSq (fun _ _ => (1 : ℝ)) (fun _ _ => 0) 0) :=
  (claim7_normals (fun _ _ => 1) 2).2.1 0 (fun _ _ => 0) (normalsUpTo_zero _)
    (by norm_num [colSumSq, colEntries, colList, sumSq, EPS])

/-- One step of the back-substitution, unfolded. -/
lemma solveUTAux_succ (N : ℕ → ℕ → ℝ) (k : ℕ) (b : ℕ → ℝ) :
    solveUTAux N (k + 1) b =
      if N k k = 0 then none
      else solveUTAux N k
        (fun r => if r = k then b k / N k k
                  else if r < k then b r - (b k / N k k) * N r k else b r) := rfl

/-- Back-substitution succeeds whenever every diagonal entry it visits is
nonzero. -/
lemma solveUTAux_total (N : ℕ → ℕ → ℝ) :
    ∀ k, (∀ i, i < k → N i i ≠ 0) → ∀ b, ∃ x, solveUTAux N k b = some x := by
  intro k
  induction k with
  | zero => exact fun _ b => ⟨b, rfl⟩
  | succ k ih =>
    intro h b
    obtain ⟨x, hx⟩ := ih (fun i hi => h i (Nat.lt_succ_of_lt hi))
      (fun r => if r = k then b k / N k k
                else if r < k then b r - (b k / N k k) * N r k else b r)
    refine ⟨x, ?_⟩
    rw [solveUTAux_succ, if_neg (h k (Nat.lt_succ_self k))]
    exact hx

/-- Claim C10: whenever `cox().normals()` returns a matrix, every
diagonal entry of that matrix is `√(1 - s)` for a sum of squares
`s < 1 - EPS` and is therefore strictly positive, so the back
substitution of `generator` never meets a zero pivot: `generator`
returns a point for every node vector. -/
theorem claim10_generator (M : ℕ → ℕ → ℝ) (n : ℕ) (N : ℕ → ℕ → ℝ)
    (h : normalsF M n = some N) :
    (∀ i, i < n → 0 < N i i) ∧ ∀ v, ∃ x, generatorM M n v = some x := by
  have hE := EPS_pos.1
  have hdiag : ∀ i, i < n → 0 < N i i := by
    intro i hi
    obtain ⟨mat, hmat, hlt, hdef⟩ := normalsF_diag M n N h i hi
    rw [hdef]
    exact Real.sqrt_pos.mpr (by linarith)
  refine ⟨hdiag, fun v => ?_⟩
  have hx := solveUTAux_total N n (fun i hi => ne_of_gt (hdiag i hi)) v
  simp only [generatorM, h]
  exact hx

/-- Witness for `claim10_generator`: the one-column normals matrix of the
all-ones Coxeter matrix. -/
theorem claim10_witness :
    ∃ x, generatorM (fun _ _ => (1 : ℝ)) 1 (fun _ => 1) = some x :=
  (claim10_generator (fun _ _ => 1) 1
    (setCol (fun _ _ => 0) 0 (colEntries (fun _ _ => 1) (fun _ _ => 0) 0)
      (Real.sqrt (1 - colSumSq (fun _ _ => 1) (fun _ _ => 0) 0)))
    (normalsUpTo_step_some (normalsUpTo_zero _)
      (by norm_num [colSumSq, colEntries, colList, sumSq, EPS]))).2 (fun _ => 1)

end CD
